import Mathlib

/-!
Verification development for the research-reader core (src-tauri/src).

The embedding covers, in order:
- the shared data model (models.rs): annotation type tags, position payloads,
  annotation records, command inputs;
- the annotation/metadata store (database.rs): a SQLite database is modelled as
  the logical contents of its two tables, `metadata` (key/value rows) and
  `annotations` (rows in insertion order); each store function is translated
  statement by statement from its SQL;
- the container codec and session type (rr_file.rs): the filesystem is a map
  from paths to typed file contents, a .rr archive is its list of entries, and
  fallible I/O is made explicit with an injected failure point so that the
  on-disk effect of a partially completed save is observable;
- the command layer (commands.rs): the process-wide session slot is an
  `Option RrSession` threaded through each command.

Machine details modelled away, each noted at its definition: UUIDs and clock
readings are taken as parameters, zip compression is lossless so entries keep
their contents, f64 coordinates inside the opaque position payload are carried
as `Int`, and serde_json (de)serialization of that payload is replaced by a
canonical encoding that the store never inspects.
-/

namespace ResearchReader

/-- Byte-wise lexicographic order on char lists; models SQLite's BINARY
collation used by `ORDER BY` on TEXT columns. -/
def chListLe : List Char → List Char → Bool
  | [], _ => true
  | _ :: _, [] => false
  | a :: as, b :: bs =>
    if a.toNat < b.toNat then true
    else if a.toNat = b.toNat then chListLe as bs
    else false

/-- Byte-wise lexicographic order on strings (SQLite BINARY collation). -/
def strLe (a b : String) : Bool := chListLe a.data b.data

/-- Strict byte-wise lexicographic order on strings. -/
def strLt (a b : String) : Bool := strLe a b && !(a == b)

/-- Annotation type tag, a closed enumeration (models.rs, `AnnotationType`). -/
inductive AnnotationType where
  | highlight
  | note
  | bookmark
deriving DecidableEq

/-- Models `AnnotationType::as_str`. -/
def AnnotationType.asStr : AnnotationType → String
  | .highlight => "highlight"
  | .note => "note"
  | .bookmark => "bookmark"

/-- Models `AnnotationType::from_str`: decoding an unrecognized tag is an
error, never a default. -/
def AnnotationType.fromStr (s : String) : Except String AnnotationType :=
  match s with
  | "highlight" => Except.ok AnnotationType.highlight
  | "note" => Except.ok AnnotationType.note
  | "bookmark" => Except.ok AnnotationType.bookmark
  | _ => Except.error ("Unknown annotation type: " ++ s)

/-- Axis-aligned rectangle (models.rs, `Rect`). The f64 coordinates are
carried as `Int`; the store never computes with them. -/
structure Rect where
  x : Int
  y : Int
  width : Int
  height : Int
deriving DecidableEq

/-- Position payload (models.rs, `PositionData`), opaque to the store. -/
structure PositionData where
  rects : List Rect
  pageWidth : Int
  pageHeight : Int
  selectedText : Option String
  startOffset : Option Nat
  endOffset : Option Nat
deriving DecidableEq

/-- Models `serde_json::to_string` for `PositionData`: a canonical encoding.
The exact text is immaterial to the program, which round-trips it as a blob;
the encoding starts with an opening brace like any JSON object. -/
def positionDataToJson (pd : PositionData) : String :=
  "\x7b" ++ String.intercalate ","
      (List.map (fun r : Rect =>
        "[" ++ toString r.x ++ "," ++ toString r.y ++ ","
            ++ toString r.width ++ "," ++ toString r.height ++ "]") pd.rects)
    ++ "|" ++ toString pd.pageWidth ++ "|" ++ toString pd.pageHeight
    ++ "|" ++ toString pd.selectedText
    ++ "|" ++ toString pd.startOffset ++ "|" ++ toString pd.endOffset ++ "\x7d"

/-- Models `serde_json::from_str` for `PositionData`. Only the grammar
boundary is modelled: deserialization fails on input that is not a JSON
object (does not start with an opening brace, byte 123). No theorem relies
on the value produced in the success case. -/
def positionDataFromJson (s : String) : Except String PositionData :=
  match s.data with
  | c :: _ =>
    if c.toNat = 123 then Except.ok ⟨[], 0, 0, none, none, none⟩
    else Except.error ("expected value at line 1 column 1: " ++ s)
  | [] => Except.error ("EOF while parsing a value at line 1 column 0: " ++ s)

/-- Input for creating an annotation (models.rs, `CreateAnnotationInput`). -/
structure CreateAnnotationInput where
  annotationType : AnnotationType
  pageNumber : Nat
  color : Option String
  content : Option String
  positionData : Option PositionData
deriving DecidableEq

/-- Input for a partial update (models.rs, `UpdateAnnotationInput`); `none`
in an optional field means the field was omitted. -/
structure UpdateAnnotationInput where
  id : String
  color : Option String
  content : Option String
  positionData : Option PositionData
deriving DecidableEq

/-- Decoded annotation as returned to callers (models.rs, `Annotation`). -/
structure AnnotationRecord where
  id : String
  annotationType : AnnotationType
  pageNumber : Nat
  color : Option String
  content : Option String
  positionData : Option PositionData
  createdAt : String
  updatedAt : String
deriving DecidableEq

/-- Stored row of the `annotations` table (database.rs schema): the type tag
and the position payload are kept as TEXT. -/
structure AnnotationRow where
  id : String
  typ : String
  pageNumber : Nat
  color : Option String
  content : Option String
  positionData : Option String
  createdAt : String
  updatedAt : String
deriving DecidableEq

/-- Logical contents of the SQLite database: the `metadata` table and the
`annotations` table, the latter in insertion (rowid) order. -/
structure Db where
  metadata : List (String × String)
  annotations : List AnnotationRow
deriving DecidableEq

/-- Freshly initialized database (database.rs, `init_db` on a new file):
both tables exist and are empty. -/
def emptyDb : Db := ⟨[], []⟩

/-- Models `get_metadata`: `SELECT value FROM metadata WHERE key = ?1`,
returning the first matching row if any. -/
def getMetadata (db : Db) (key : String) : Option String :=
  (List.find? (fun kv => kv.1 == key) db.metadata).map (fun kv => kv.2)

/-- Models `set_metadata`: `INSERT OR REPLACE INTO metadata`, which removes a
conflicting row and inserts the new one. -/
def setMetadata (db : Db) (key value : String) : Db :=
  { db with metadata :=
      (List.filter (fun kv => !(kv.1 == key)) db.metadata) ++ [(key, value)] }

/-- Models `create_annotation` (database.rs). The UUID and the clock reading
are parameters. The INSERT fails on a primary-key conflict; both timestamps
are set to `now`, and the returned record echoes the input fields. -/
def createAnnotationRow (db : Db) (input : CreateAnnotationInput)
    (id now : String) : Except String (AnnotationRecord × Db) :=
  if List.any db.annotations (fun r => r.id == id) then
    Except.error "UNIQUE constraint failed: annotations.id"
  else
    let row : AnnotationRow :=
      ⟨id, AnnotationType.asStr input.annotationType, input.pageNumber,
        input.color, input.content,
        Option.map positionDataToJson input.positionData, now, now⟩
    Except.ok
      (⟨id, input.annotationType, input.pageNumber, input.color,
          input.content, input.positionData, now, now⟩,
        { db with annotations := db.annotations ++ [row] })

/-- SQL `COALESCE(?, col)`: the bound parameter if non-NULL, else the
current column value. -/
def coalesce (newVal oldVal : Option String) : Option String :=
  match newVal with
  | some v => some v
  | none => oldVal

/-- Effect of the UPDATE statement of `update_annotation` on one row: rows
with a different id are untouched; the matching row gets each optional column
replaced only when the parameter is non-NULL, and `updated_at` set to now. -/
def applyAnnotationUpdate (input : UpdateAnnotationInput) (now : String)
    (r : AnnotationRow) : AnnotationRow :=
  if r.id == input.id then
    { r with
        color := coalesce input.color r.color,
        content := coalesce input.content r.content,
        positionData :=
          coalesce (Option.map positionDataToJson input.positionData)
            r.positionData,
        updatedAt := now }
  else r

/-- Models `update_annotation` (database.rs): runs the UPDATE over the table
and reports whether any row was affected. -/
def updateAnnotationRow (db : Db) (input : UpdateAnnotationInput)
    (now : String) : Bool × Db :=
  (decide (0 < List.countP (fun r => r.id == input.id) db.annotations),
    { db with
        annotations := List.map (applyAnnotationUpdate input now) db.annotations })

/-- Models `delete_annotation` (database.rs): `DELETE FROM annotations WHERE
id = ?1`, reporting whether any row was affected. -/
def deleteAnnotationRow (db : Db) (id : String) : Bool × Db :=
  (decide (0 < List.countP (fun r => r.id == id) db.annotations),
    { db with annotations := List.filter (fun r => !(r.id == id)) db.annotations })

/-- Sort key of the unfiltered listing: `ORDER BY page_number ASC,
created_at ASC` with SQLite BINARY collation on the TEXT column. -/
def rowLe (a b : AnnotationRow) : Prop :=
  a.pageNumber < b.pageNumber ∨
    (a.pageNumber = b.pageNumber ∧ strLe a.createdAt b.createdAt = true)

instance : DecidableRel rowLe := fun a b => by
  unfold rowLe
  exact inferInstance

/-- Sort key of the page-filtered listing: `ORDER BY created_at ASC`. -/
def rowCreatedLe (a b : AnnotationRow) : Prop :=
  strLe a.createdAt b.createdAt = true

instance : DecidableRel rowCreatedLe := fun a b => by
  unfold rowCreatedLe
  exact inferInstance

/-- Row selection of `get_annotations` (database.rs): WHERE clause then ORDER
BY clause. Sorting is modelled by a stable sort; SQLite leaves the order of
rows with equal sort keys unspecified, so any refinement of it is sound. -/
def selectAnnotations (db : Db) (pageNumber : Option Nat) : List AnnotationRow :=
  match pageNumber with
  | some p =>
    List.insertionSort rowCreatedLe
      (List.filter (fun r => r.pageNumber == p) db.annotations)
  | none => List.insertionSort rowLe db.annotations

/-- Row decoding step of `get_annotations`: the type tag goes through
`AnnotationType::from_str` and a failure is surfaced (wrapped as
`rusqlite::Error::InvalidParameterName`); the position payload goes through
`serde_json::from_str(..).ok()`, so a parse failure becomes `none`. -/
def decodeAnnotationRow (r : AnnotationRow) : Except String AnnotationRecord :=
  match AnnotationType.fromStr r.typ with
  | Except.error e => Except.error e
  | Except.ok t =>
    Except.ok
      ⟨r.id, t, r.pageNumber, r.color, r.content,
        Option.bind r.positionData (fun s => Except.toOption (positionDataFromJson s)),
        r.createdAt, r.updatedAt⟩

/-- Row loop of `get_annotations`: decode each row in order, aborting on the
first decode error (the `while let Some(row) = rows.next()?` loop). -/
def decodeRows : List AnnotationRow → Except String (List AnnotationRecord)
  | [] => Except.ok []
  | r :: rs =>
    match decodeAnnotationRow r with
    | Except.error e => Except.error e
    | Except.ok a =>
      match decodeRows rs with
      | Except.error e => Except.error e
      | Except.ok as => Except.ok (a :: as)

/-- Models `get_annotations` (database.rs): select rows, decode each in
order, aborting on the first decode error. -/
def getAnnotations (db : Db) (pageNumber : Option Nat) :
    Except String (List AnnotationRecord) :=
  decodeRows (selectAnnotations db pageNumber)

/-- Total variant of the row decoding used to state theorems about databases
whose stored type tags are all valid. -/
def decodeRowD (r : AnnotationRow) : AnnotationRecord :=
  ⟨r.id, (Except.toOption (AnnotationType.fromStr r.typ)).getD AnnotationType.highlight,
    r.pageNumber, r.color, r.content,
    Option.bind r.positionData (fun s => Except.toOption (positionDataFromJson s)),
    r.createdAt, r.updatedAt⟩

/-- Every stored type tag decodes (holds for any database written through
`create_annotation`, whose tags come from `AnnotationType::as_str`). -/
def wellFormedDb (db : Db) : Bool :=
  List.all db.annotations
    (fun r => (Except.toOption (AnnotationType.fromStr r.typ)).isSome)

/-- Strict creation-time order on rows; holds between successive creations
when each uses a fresh, later timestamp. -/
def rowCreatedLt (a b : AnnotationRow) : Prop :=
  strLt a.createdAt b.createdAt = true

/-- Default row used with `List.getD` to state positional facts without
bound-proof binders. -/
def dRow : AnnotationRow := ⟨"", "", 0, none, none, none, "", ""⟩

/-- A sequence of partial updates applied in order (each with its own clock
reading), as a caller of `update_annotation` would issue them. -/
def applyUpdates (db : Db) (us : List (UpdateAnnotationInput × String)) : Db :=
  List.foldl (fun d u => (updateAnnotationRow d u.1 u.2).2) db us

/-- Contents of one file. Raw files are byte lists; a SQLite file is carried
as its logical table contents (the two views coincide once the WAL is
checkpointed); an archive file is its list of entries, kept verbatim since
zip compression is lossless. -/
inductive FileData where
  | bytes : List Nat → FileData
  | dbFile : Db → FileData
  | archive : List (String × FileData) → FileData

/-- A directory of files: association from path (or entry name) to contents.
Used both for the host filesystem and for a session's working directory. -/
abbrev Fs := List (String × FileData)

/-- Read a path; the most recent write wins. -/
def fsRead : Fs → String → Option FileData
  | [], _ => none
  | (q, d) :: t, p => if q == p then some d else fsRead t p

/-- Create/overwrite a path (models `File::create` followed by a full
write). -/
def fsWrite (fs : Fs) (p : String) (d : FileData) : Fs :=
  (p, d) :: List.filter (fun e => !(e.1 == p)) fs

/-- Split a char list on a separator (helper for the path functions). -/
def splitChars (sep : Char) : List Char → List (List Char)
  | [] => [[]]
  | c :: cs =>
    let r := splitChars sep cs
    if c = sep then [] :: r
    else
      match r with
      | h :: t => (c :: h) :: t
      | [] => [[c]]

/-- Last path component, as chars (models `Path::file_name` for plain
paths). -/
def fileNameChars (p : String) : List Char :=
  List.getLastD (splitChars (Char.ofNat 47) p.data) []

/-- Models `Path::extension`: the part of the file name after the final dot,
none when there is no embedded dot or the name starts with its only dot. -/
def fileExtensionChars (p : String) : Option (List Char) :=
  match splitChars (Char.ofNat 46) (fileNameChars p) with
  | [] => none
  | [_] => none
  | [[], _] => none
  | parts => parts.getLast?

/-- String view of `fileExtensionChars`. -/
def fileExtension (p : String) : Option String :=
  Option.map String.mk (fileExtensionChars p)

/-- Models `Path::file_stem`: the file name with its extension stripped. -/
def fileStem (p : String) : Option String :=
  match fileNameChars p with
  | [] => none
  | name =>
    match fileExtensionChars p with
    | none => some (String.mk name)
    | some ext => some (String.mk (List.take (name.length - (ext.length + 1)) name))

/-- Models `Path::with_extension`: replaces the extension, or appends one
when the path has none. -/
def withExtension (p : String) (newExt : String) : String :=
  match fileExtensionChars p with
  | none => p ++ "." ++ newExt
  | some ext =>
    String.mk (List.take (p.data.length - (ext.length + 1)) p.data) ++ "." ++ newExt

/-- Manifest written at import time (models.rs, `RrManifest`). -/
structure RrManifest where
  version : String
  format : String
  createdAt : String
deriving DecidableEq

/-- Models `RrManifest::default`; the clock reading is a parameter. -/
def manifestDefault (now : String) : RrManifest :=
  ⟨"1.0.0", "research-reader", now⟩

/-- Models `serde_json::to_string_pretty` for the manifest; the exact text is
never read back by the program. -/
def manifestJson (m : RrManifest) : String :=
  "\x7b \"version\": \"" ++ m.version ++ "\", \"format\": \"" ++ m.format
    ++ "\", \"created_at\": \"" ++ m.createdAt ++ "\" \x7d"

/-- UTF-8-ish byte view of a string, enough to treat text files as bytes. -/
def strBytes (s : String) : List Nat := List.map Char.toNat s.data

/-- Session over an open container (rr_file.rs, `RrSession`): persistent
archive path, extracted working directory, live SQLite handle. The
temp-directory prefix of the working directory is not modelled; working
directory entries are addressed by their archive-relative names. -/
structure RrSession where
  rrPath : String
  workDir : Fs
  db : Db

/-- Injected I/O failure point for `save_rr`: step `k` of the save succeeds
iff `k` is below the failure point (steps: 0 create, 1 manifest entry, 2 pdf
entry, 3 checkpoint plus database entry, 4 finalize). `none` means no
failure. -/
def stepOk (failAt : Option Nat) (k : Nat) : Bool :=
  match failAt with
  | none => true
  | some f => decide (k < f)

/-- Models `save_rr` (rr_file.rs). `File::create` truncates the destination
in place and the zip entries are then streamed directly to it, so a failure
after step 0 leaves a partial archive at the destination; only a failure of
the create itself leaves the previous file intact. Entries absent from the
working directory are skipped, never erroring. The database entry is written
from the live handle after the WAL checkpoint, so it reflects all committed
edits. -/
def saveRr (fs : Fs) (failAt : Option Nat) (s : RrSession) :
    Except String Unit × Fs :=
  if !(stepOk failAt 0) then
    (Except.error ("Failed to create .rr file: " ++ s.rrPath), fs)
  else
    let entries0 : Fs := []
    if (fsRead s.workDir "manifest.json").isSome && !(stepOk failAt 1) then
      (Except.error "Failed to write manifest",
        fsWrite fs s.rrPath (FileData.archive entries0))
    else
      let entries1 := match fsRead s.workDir "manifest.json" with
        | some d => entries0 ++ [("manifest.json", d)]
        | none => entries0
      if (fsRead s.workDir "document.pdf").isSome && !(stepOk failAt 2) then
        (Except.error "Failed to write PDF",
          fsWrite fs s.rrPath (FileData.archive entries1))
      else
        let entries2 := match fsRead s.workDir "document.pdf" with
          | some d => entries1 ++ [("document.pdf", d)]
          | none => entries1
        if (fsRead s.workDir "data.sqlite").isSome && !(stepOk failAt 3) then
          (Except.error "Failed to write database",
            fsWrite fs s.rrPath (FileData.archive entries2))
        else
          let entries3 := match fsRead s.workDir "data.sqlite" with
            | some _ => entries2 ++ [("data.sqlite", FileData.dbFile s.db)]
            | none => entries2
          if !(stepOk failAt 4) then
            (Except.error "Failed to finalize archive",
              fsWrite fs s.rrPath (FileData.archive entries3))
          else
            (Except.ok (), fsWrite fs s.rrPath (FileData.archive entries3))

/-- Models `open_rr` (rr_file.rs): extract every archive entry verbatim into
a fresh working directory, then open `data.sqlite` (rusqlite creates the
file when absent, and `init_db` creates missing tables). -/
def openRr (fs : Fs) (rrPath : String) : Except String RrSession :=
  match fsRead fs rrPath with
  | none => Except.error ("Failed to open .rr file: " ++ rrPath)
  | some (FileData.bytes _) => Except.error ("Failed to read .rr archive: " ++ rrPath)
  | some (FileData.dbFile _) => Except.error ("Failed to read .rr archive: " ++ rrPath)
  | some (FileData.archive entries) =>
    let workDir := List.foldl (fun wd (e : String × FileData) => fsWrite wd e.1 e.2)
      ([] : Fs) entries
    match fsRead workDir "data.sqlite" with
    | some (FileData.dbFile d) => Except.ok ⟨rrPath, workDir, d⟩
    | some _ => Except.error "Failed to open database"
    | none => Except.ok ⟨rrPath, fsWrite workDir "data.sqlite" (FileData.dbFile emptyDb), emptyDb⟩

/-- Models `import_pdf` (rr_file.rs): default destination is the source path
with its extension replaced by `rr`; copy the PDF, write a fresh manifest,
create and initialize the database, seed `title` from the source file stem
when derivable, then immediately pack with `save_rr`. -/
def importPdf (fs : Fs) (failAt : Option Nat) (pdfPath : String)
    (outputPath : Option String) (now : String) : Except String RrSession × Fs :=
  let rrPath := match outputPath with
    | some p => p
    | none => withExtension pdfPath "rr"
  match fsRead fs pdfPath with
  | none => (Except.error ("Failed to copy PDF: " ++ pdfPath), fs)
  | some pdfData =>
    let wd0 := fsWrite [] "document.pdf" pdfData
    let wd1 := fsWrite wd0 "manifest.json"
      (FileData.bytes (strBytes (manifestJson (manifestDefault now))))
    let db1 := match fileStem pdfPath with
      | some stem => setMetadata emptyDb "title" stem
      | none => emptyDb
    let wd2 := fsWrite wd1 "data.sqlite" (FileData.dbFile db1)
    let session : RrSession := ⟨rrPath, wd2, db1⟩
    match saveRr fs failAt session with
    | (Except.ok _, fs2) => (Except.ok session, fs2)
    | (Except.error e, fs2) => (Except.error e, fs2)

/-- Models `cleanup_session` (rr_file.rs): best-effort removal of the
working directory; it has no observable effect on the modelled filesystem
(the working directory lives only inside the session) and never fails. -/
def cleanupSession (_s : RrSession) : Unit := ()

/-- The process-wide session slot (commands.rs, `AppState`): at most one
session. Single-threaded model; the mutex serializes all accesses. -/
abbrev AppState := Option RrSession

/-- Response of `open_file` (commands.rs, `DocumentInfo`). -/
structure DocumentInfo where
  pdfPath : String
  rrPath : String
  title : Option String
  pageCount : Option Nat
  lastPage : Option Nat
deriving DecidableEq

/-- ASCII lowercase of one char (models `str::to_lowercase` on the ASCII
extensions the dispatch compares against). -/
def lowerChar (c : Char) : Char :=
  if 65 ≤ c.toNat ∧ c.toNat ≤ 90 then Char.ofNat (c.toNat + 32) else c

/-- ASCII lowercase of a string. -/
def lowerStr (s : String) : String := String.mk (List.map lowerChar s.data)

/-- Extension dispatch of `open_file`: lowercased extension, empty when
absent. -/
def extOf (path : String) : String :=
  lowerStr ((fileExtension path).getD "")

/-- Models the `open_file` command (commands.rs): dispatch on the extension,
establish the new session, read the summary metadata, then take the lock,
discard any previous session with `cleanup_session` only (no save), and
install the new session. -/
def openFile (fs : Fs) (failAt : Option Nat) (path : String) (st : AppState)
    (now : String) : Except String DocumentInfo × AppState × Fs :=
  let ext := extOf path
  let opened : Except String RrSession × Fs :=
    match ext with
    | "rr" => (openRr fs path, fs)
    | "pdf" => importPdf fs failAt path none now
    | _ => (Except.error ("Unsupported file type: ." ++ ext), fs)
  match opened with
  | (Except.error e, fs2) => (Except.error e, st, fs2)
  | (Except.ok session, fs2) =>
    let info : DocumentInfo :=
      ⟨"document.pdf", session.rrPath, getMetadata session.db "title",
        Option.bind (getMetadata session.db "page_count") String.toNat?,
        Option.bind (getMetadata session.db "last_page") String.toNat?⟩
    let _discard := Option.map cleanupSession st
    (Except.ok info, some session, fs2)

/-- Models the `save_file` command (commands.rs): requires an open session,
saves it, keeps it installed whatever the outcome. -/
def saveFile (fs : Fs) (failAt : Option Nat) (st : AppState) :
    Except String Unit × AppState × Fs :=
  match st with
  | none => (Except.error "No file is open", none, fs)
  | some s =>
    match saveRr fs failAt s with
    | (r, fs2) => (r, some s, fs2)

/-- Models the `close_file` command (commands.rs): `session.take()` empties
the slot first; the taken session is then saved and cleaned up, and a save
error propagates after the slot is already empty. No-op when no session is
open. -/
def closeFile (fs : Fs) (failAt : Option Nat) (st : AppState) :
    Except String Unit × AppState × Fs :=
  match st with
  | none => (Except.ok (), none, fs)
  | some prev =>
    match saveRr fs failAt prev with
    | (Except.error e, fs2) => (Except.error e, none, fs2)
    | (Except.ok _, fs2) =>
      let _discard := cleanupSession prev
      (Except.ok (), none, fs2)

/-- Models the `get_annotations` command (commands.rs). -/
def getAnnotationsCmd (st : AppState) (pageNumber : Option Nat) :
    Except String (List AnnotationRecord) × AppState :=
  match st with
  | none => (Except.error "No file is open", none)
  | some s =>
    (Except.mapError (fun e => "Failed to get annotations: " ++ e)
        (getAnnotations s.db pageNumber),
      some s)

/-- Models the `create_annotation` command (commands.rs); UUID and clock are
parameters. -/
def createAnnotationCmd (st : AppState) (input : CreateAnnotationInput)
    (id now : String) : Except String AnnotationRecord × AppState :=
  match st with
  | none => (Except.error "No file is open", none)
  | some s =>
    match createAnnotationRow s.db input id now with
    | Except.error e => (Except.error ("Failed to create annotation: " ++ e), some s)
    | Except.ok (rec, db2) => (Except.ok rec, some { s with db := db2 })

/-- Models the `update_annotation` command (commands.rs). -/
def updateAnnotationCmd (st : AppState) (input : UpdateAnnotationInput)
    (now : String) : Except String Bool × AppState :=
  match st with
  | none => (Except.error "No file is open", none)
  | some s =>
    let r := updateAnnotationRow s.db input now
    (Except.ok r.1, some { s with db := r.2 })

/-- Models the `delete_annotation` command (commands.rs). -/
def deleteAnnotationCmd (st : AppState) (id : String) :
    Except String Bool × AppState :=
  match st with
  | none => (Except.error "No file is open", none)
  | some s =>
    let r := deleteAnnotationRow s.db id
    (Except.ok r.1, some { s with db := r.2 })

/-- Models the `set_document_metadata` command (commands.rs). -/
def setDocumentMetadataCmd (st : AppState) (key value : String) :
    Except String Unit × AppState :=
  match st with
  | none => (Except.error "No file is open", none)
  | some s => (Except.ok (), some { s with db := setMetadata s.db key value })

/-- Models the `read_pdf_bytes` command (commands.rs): reads the extracted
PDF from the session's working directory. -/
def readPdfBytesCmd (st : AppState) : Except String (List Nat) × AppState :=
  match st with
  | none => (Except.error "No file is open", none)
  | some s =>
    match fsRead s.workDir "document.pdf" with
    | some (FileData.bytes b) => (Except.ok b, some s)
    | some _ => (Except.error "Failed to read PDF", some s)
    | none => (Except.error "Failed to read PDF", some s)

/-! Concrete scenarios used by the counterexample and witness theorems. -/

/-- An annotation row created in a session but not yet saved to its archive. -/
def pendingRow : AnnotationRow := ⟨"u1", "note", 2, none, some "draft", none, "t1", "t1"⟩

/-- The archive of document A as it sits on disk: it does not contain
`pendingRow`. -/
def staleArchiveA : FileData := FileData.archive
  [("manifest.json", FileData.bytes [10]), ("document.pdf", FileData.bytes [1]),
    ("data.sqlite", FileData.dbFile emptyDb)]

/-- A second, independent container on disk. -/
def archiveB : FileData := FileData.archive
  [("manifest.json", FileData.bytes [11]), ("document.pdf", FileData.bytes [2]),
    ("data.sqlite", FileData.dbFile emptyDb)]

/-- Disk state with both containers present. -/
def fsAB : Fs := [("a.rr", staleArchiveA), ("b.rr", archiveB)]

/-- Open session on document A whose live database holds `pendingRow`, an
edit not yet persisted to `a.rr`. -/
def sessionA : RrSession :=
  ⟨"a.rr",
    [("manifest.json", FileData.bytes [10]), ("document.pdf", FileData.bytes [1]),
      ("data.sqlite", FileData.dbFile emptyDb)],
    ⟨[], [pendingRow]⟩⟩

/-- A good archive at `doc.rr`, the last successfully saved state. -/
def goodArchive : FileData := FileData.archive
  [("manifest.json", FileData.bytes [10]), ("document.pdf", FileData.bytes [1]),
    ("data.sqlite", FileData.dbFile emptyDb)]

/-- Disk state holding only `doc.rr`. -/
def fsD : Fs := [("doc.rr", goodArchive)]

/-- Open session on `doc.rr` with an unsaved edit in its live database. -/
def sessionD : RrSession :=
  ⟨"doc.rr",
    [("manifest.json", FileData.bytes [10]), ("document.pdf", FileData.bytes [1]),
      ("data.sqlite", FileData.dbFile emptyDb)],
    ⟨[], [pendingRow]⟩⟩

/-- A stored row whose type tag is valid but whose serialized position
payload is not parseable JSON. -/
def badPosDb : Db :=
  ⟨[], [⟨"a1", "highlight", 1, none, none, some "not json", "t1", "t1"⟩]⟩

/-- Row used by the update witnesses: color, content present, position
absent. -/
def wRow : AnnotationRow := ⟨"x", "note", 1, some "red", some "c", none, "t1", "t1"⟩

/-- Database holding just `wRow`. -/
def wDb : Db := ⟨[], [wRow]⟩

/-- Update input supplying only `color`; `content` and `position_data`
omitted. -/
def wInput : UpdateAnnotationInput := ⟨"x", some "blue", none, none⟩

/-- Creation input used by the ordering example (page number varies). -/
def exInput (p : Nat) : CreateAnnotationInput :=
  ⟨AnnotationType.note, p, none, none, none⟩

/-- Creating annotations on pages 3, 1, 2 in that order through
`create_annotation`, with increasing timestamps. -/
def mkExDb : Except String Db := do
  let r1 ← createAnnotationRow emptyDb (exInput 3) "a1" "t1"
  let r2 ← createAnnotationRow r1.2 (exInput 1) "a2" "t2"
  let r3 ← createAnnotationRow r2.2 (exInput 2) "a3" "t3"
  Except.ok r3.2

/-- The database state produced by `mkExDb`. -/
def exDb : Db :=
  ⟨[], [⟨"a1", "note", 3, none, none, none, "t1", "t1"⟩,
        ⟨"a2", "note", 1, none, none, none, "t2", "t2"⟩,
        ⟨"a3", "note", 2, none, none, none, "t3", "t3"⟩]⟩

/-! Helper lemmas about the byte-wise string order. -/

theorem chListLe_total : ∀ a b, chListLe a b = true ∨ chListLe b a = true := by
  intro a
  induction a with
  | nil => intro b; left; rfl
  | cons x xs ih =>
    intro b
    cases b with
    | nil => right; rfl
    | cons y ys =>
      simp only [chListLe]
      rcases Nat.lt_trichotomy x.toNat y.toNat with h | h | h
      · left; simp [h]
      · rcases ih ys with h2 | h2
        · left; simp [h, h2]
        · right; simp [h.symm, h2]
      · right; simp [h]

theorem chListLe_trans : ∀ a b c, chListLe a b = true → chListLe b c = true →
    chListLe a c = true := by
  intro a
  induction a with
  | nil => intro b c _ _; rfl
  | cons x xs ih =>
    intro b c h1 h2
    cases b with
    | nil => simp [chListLe] at h1
    | cons y ys =>
      cases c with
      | nil => simp [chListLe] at h2
      | cons z zs =>
        simp only [chListLe] at h1 h2 ⊢
        by_cases hxy : x.toNat < y.toNat
        · by_cases hyz : y.toNat < z.toNat
          · simp [Nat.lt_trans hxy hyz]
          · by_cases hyz2 : y.toNat = z.toNat
            · simp [hyz2 ▸ hxy]
            · simp [hyz, hyz2] at h2
        · by_cases hxy2 : x.toNat = y.toNat
          · by_cases hyz : y.toNat < z.toNat
            · simp [hxy2 ▸ hyz]
            · by_cases hyz2 : y.toNat = z.toNat
              · have hxz : x.toNat = z.toNat := hxy2.trans hyz2
                have h1' : chListLe xs ys = true := by simpa [hxy, hxy2] using h1
                have h2' : chListLe ys zs = true := by simpa [hyz, hyz2] using h2
                simp [hxz, ih ys zs h1' h2']
              · simp [hyz, hyz2] at h2
          · simp [hxy, hxy2] at h1

theorem chListLe_antisymm : ∀ a b, chListLe a b = true → chListLe b a = true →
    a = b := by
  intro a
  induction a with
  | nil =>
    intro b _ h2
    cases b with
    | nil => rfl
    | cons y ys => simp [chListLe] at h2
  | cons x xs ih =>
    intro b h1 h2
    cases b with
    | nil => simp [chListLe] at h1
    | cons y ys =>
      simp only [chListLe] at h1 h2
      by_cases hxy : x.toNat < y.toNat
      · have : ¬(y.toNat < x.toNat) := Nat.lt_asymm hxy
        have hne : ¬(y.toNat = x.toNat) := fun h => absurd (h ▸ hxy) (Nat.lt_irrefl _)
        simp [this, hne] at h2
      · by_cases hxy2 : x.toNat = y.toNat
        · have hx : x = y := by
            have := congrArg Char.ofNat hxy2
            rwa [Char.ofNat_toNat, Char.ofNat_toNat] at this
          have h1' : chListLe xs ys = true := by simpa [hxy, hxy2] using h1
          have h2' : chListLe ys xs = true := by
            simpa [hxy2 ▸ hxy, hxy2.symm] using h2
          rw [hx, ih ys h1' h2']
        · simp [hxy, hxy2] at h1

theorem strLe_total (a b : String) : strLe a b = true ∨ strLe b a = true :=
  chListLe_total a.data b.data

theorem strLe_trans {a b c : String} (h1 : strLe a b = true)
    (h2 : strLe b c = true) : strLe a c = true :=
  chListLe_trans a.data b.data c.data h1 h2

theorem strLe_antisymm {a b : String} (h1 : strLe a b = true)
    (h2 : strLe b a = true) : a = b := by
  cases a with
  | mk la =>
    cases b with
    | mk lb => rw [chListLe_antisymm la lb h1 h2]

theorem strLt_ne {a b : String} (h : strLt a b = true) : a ≠ b := by
  have := (Bool.and_eq_true _ _).mp h
  intro hab
  rw [hab] at this
  simp at this

theorem strLt_le {a b : String} (h : strLt a b = true) : strLe a b = true :=
  ((Bool.and_eq_true _ _).mp h).1

theorem strLt_asymm {a b : String} (h1 : strLt a b = true)
    (h2 : strLt b a = true) : False :=
  strLt_ne h1 (strLe_antisymm (strLt_le h1) (strLt_le h2))

theorem strLt_of_strLe_ne {a b : String} (h : strLe a b = true) (hne : a ≠ b) :
    strLt a b = true := by
  simp [strLt, h, hne]

/-! Order instances for the listing sort keys. -/

instance : IsTotal AnnotationRow rowLe := by
  constructor
  intro a b
  rcases Nat.lt_trichotomy a.pageNumber b.pageNumber with h | h | h
  · exact Or.inl (Or.inl h)
  · rcases strLe_total a.createdAt b.createdAt with h2 | h2
    · exact Or.inl (Or.inr ⟨h, h2⟩)
    · exact Or.inr (Or.inr ⟨h.symm, h2⟩)
  · exact Or.inr (Or.inl h)

instance : IsTrans AnnotationRow rowLe := by
  constructor
  intro a b c h1 h2
  rcases h1 with h1 | ⟨h1e, h1s⟩
  · rcases h2 with h2 | ⟨h2e, _⟩
    · exact Or.inl (Nat.lt_trans h1 h2)
    · exact Or.inl (h2e ▸ h1)
  · rcases h2 with h2 | ⟨h2e, h2s⟩
    · exact Or.inl (h1e ▸ h2)
    · exact Or.inr ⟨h1e.trans h2e, strLe_trans h1s h2s⟩

instance : IsTotal AnnotationRow rowCreatedLe := by
  constructor
  intro a b
  exact strLe_total a.createdAt b.createdAt

instance : IsTrans AnnotationRow rowCreatedLe := by
  constructor
  intro a b c h1 h2
  exact strLe_trans h1 h2

instance : DecidableRel rowCreatedLt := fun a b => by
  unfold rowCreatedLt
  exact inferInstance

instance : IsAntisymm AnnotationRow rowCreatedLt := by
  constructor
  intro a b h1 h2
  exact False.elim (strLt_asymm h1 h2)

/-! Helper lemmas about the filesystem model. -/

theorem fsRead_filter_ne (fs : Fs) (k q : String) (h : q ≠ k) :
    fsRead (List.filter (fun e => !(e.1 == k)) fs) q = fsRead fs q := by
  induction fs with
  | nil => rfl
  | cons e t ih =>
    obtain ⟨e1, e2⟩ := e
    by_cases he : e1 = k
    · subst he
      have h1 : (e1 == q) = false := by
        rw [beq_eq_false_iff_ne]
        exact Ne.symm h
      simp [List.filter_cons, fsRead, h1, ih]
    · have h2 : (!(e1 == k)) = true := by simp [he]
      by_cases heq : (e1 == q) = true
      · simp [List.filter_cons, h2, fsRead, heq]
      · simp [List.filter_cons, h2, fsRead, heq, ih]

theorem fsRead_fsWrite (fs : Fs) (k q : String) (d : FileData) :
    fsRead (fsWrite fs k d) q = if k = q then some d else fsRead fs q := by
  by_cases h : k = q
  · simp [fsWrite, fsRead, h]
  · simp [fsWrite, fsRead, h, fsRead_filter_ne fs k q (Ne.symm h)]

/-! Helper lemmas about the metadata store. -/

theorem getMetadata_setMetadata_self (db : Db) (k v : String) :
    getMetadata (setMetadata db k v) k = some v := by
  unfold getMetadata setMetadata
  induction db.metadata with
  | nil => simp
  | cons e t ih =>
    by_cases he : e.1 = k
    · have h1 : (!(e.1 == k)) = false := by simp [he]
      simp only [List.filter_cons, h1, Bool.false_eq_true, if_false]
      exact ih
    · simp only [List.filter_cons]
      have h2 : (!(e.1 == k)) = true := by simp [he]
      simp only [h2, if_true, List.cons_append, List.find?]
      have h3 : (e.1 == k) = false := beq_eq_false_iff_ne.mpr he
      simp only [h3]
      exact ih

/-! Helper lemmas about row decoding. -/

theorem decodeAnnotationRow_ok {r : AnnotationRow}
    (h : (Except.toOption (AnnotationType.fromStr r.typ)).isSome = true) :
    decodeAnnotationRow r = Except.ok (decodeRowD r) := by
  unfold decodeAnnotationRow decodeRowD
  cases hf : AnnotationType.fromStr r.typ with
  | error e => simp [hf, Except.toOption] at h
  | ok t => simp [hf, Except.toOption]

theorem decodeRows_ok {rows : List AnnotationRow}
    (h : ∀ r ∈ rows, (Except.toOption (AnnotationType.fromStr r.typ)).isSome = true) :
    decodeRows rows = Except.ok (List.map decodeRowD rows) := by
  induction rows with
  | nil => rfl
  | cons r rs ih =>
    have h1 := h r (by simp)
    have h2 := ih (fun x hx => h x (by simp [hx]))
    simp [decodeRows, decodeAnnotationRow_ok h1, h2]

theorem decodeRows_mem_ok {rows : List AnnotationRow}
    {l : List AnnotationRecord} (hok : decodeRows rows = Except.ok l) :
    ∀ r ∈ rows, ∃ a, decodeAnnotationRow r = Except.ok a := by
  induction rows generalizing l with
  | nil => intro r hr; simp at hr
  | cons x xs ih =>
    intro r hr
    simp only [decodeRows] at hok
    cases hd : decodeAnnotationRow x with
    | error e => rw [hd] at hok; exact absurd hok (by simp)
    | ok a =>
      rw [hd] at hok
      cases ht : decodeRows xs with
      | error e => rw [ht] at hok; exact absurd hok (by simp)
      | ok as =>
        rcases List.mem_cons.mp hr with hr1 | hr2
        · exact ⟨a, hr1 ▸ hd⟩
        · exact ih ht r hr2

theorem decodeRowD_pageNumber (r : AnnotationRow) :
    (decodeRowD r).pageNumber = r.pageNumber := rfl

theorem decodeRowD_createdAt (r : AnnotationRow) :
    (decodeRowD r).createdAt = r.createdAt := rfl

/-! Helper lemmas about partial update. -/

theorem updateAnnotationRow_length (db : Db) (input : UpdateAnnotationInput)
    (now : String) :
    (updateAnnotationRow db input now).2.annotations.length =
      db.annotations.length := by
  simp [updateAnnotationRow]

theorem updateAnnotationRow_getD (db : Db) (input : UpdateAnnotationInput)
    (now : String) (i : Nat) :
    List.getD (updateAnnotationRow db input now).2.annotations i dRow =
      if i < db.annotations.length
      then applyAnnotationUpdate input now (List.getD db.annotations i dRow)
      else dRow := by
  unfold updateAnnotationRow
  simp only [List.getD_eq_getElem?_getD, List.getElem?_map]
  cases h : db.annotations[i]? with
  | none =>
    have := List.getElem?_eq_none_iff.mp h
    simp [Nat.not_lt_of_le this]
  | some r =>
    have hlt : i < db.annotations.length := by
      by_contra hge
      rw [List.getElem?_eq_none_iff.mpr (Nat.le_of_not_lt hge)] at h
      cases h
    simp [hlt, h]

theorem applyAnnotationUpdate_ne {input : UpdateAnnotationInput} {now : String}
    {r : AnnotationRow} (h : r.id ≠ input.id) :
    applyAnnotationUpdate input now r = r := by
  simp [applyAnnotationUpdate, h]

theorem applyAnnotationUpdate_color_isSome (input : UpdateAnnotationInput)
    (now : String) (r : AnnotationRow) (h : r.color.isSome = true) :
    (applyAnnotationUpdate input now r).color.isSome = true := by
  unfold applyAnnotationUpdate
  by_cases hid : (r.id == input.id) = true
  · cases hc : input.color with
    | none => simpa [hid, coalesce, hc] using h
    | some c => simp [hid, coalesce, hc]
  · simpa [hid] using h

theorem applyAnnotationUpdate_content_isSome (input : UpdateAnnotationInput)
    (now : String) (r : AnnotationRow) (h : r.content.isSome = true) :
    (applyAnnotationUpdate input now r).content.isSome = true := by
  unfold applyAnnotationUpdate
  by_cases hid : (r.id == input.id) = true
  · cases hc : input.content with
    | none => simpa [hid, coalesce, hc] using h
    | some c => simp [hid, coalesce, hc]
  · simpa [hid] using h

theorem applyAnnotationUpdate_positionData_isSome (input : UpdateAnnotationInput)
    (now : String) (r : AnnotationRow) (h : r.positionData.isSome = true) :
    (applyAnnotationUpdate input now r).positionData.isSome = true := by
  unfold applyAnnotationUpdate
  by_cases hid : (r.id == input.id) = true
  · cases hc : input.positionData with
    | none => simpa [hid, coalesce, hc] using h
    | some pd => simp [hid, coalesce, hc]
  · simpa [hid] using h

theorem getD_dRow_out {l : List AnnotationRow} {i : Nat} (h : ¬i < l.length) :
    List.getD l i dRow = dRow := by
  rw [List.getD_eq_getElem?_getD, List.getElem?_eq_none_iff.mpr (Nat.le_of_not_lt h)]
  rfl

theorem updateAnnotationRow_keeps_color (db : Db) (input : UpdateAnnotationInput)
    (now : String) (i : Nat)
    (h : (List.getD db.annotations i dRow).color.isSome = true) :
    (List.getD (updateAnnotationRow db input now).2.annotations i dRow).color.isSome =
      true := by
  rw [updateAnnotationRow_getD]
  by_cases hl : i < db.annotations.length
  · rw [if_pos hl]
    exact applyAnnotationUpdate_color_isSome _ _ _ h
  · rw [getD_dRow_out hl] at h
    simp [dRow] at h

theorem updateAnnotationRow_keeps_content (db : Db) (input : UpdateAnnotationInput)
    (now : String) (i : Nat)
    (h : (List.getD db.annotations i dRow).content.isSome = true) :
    (List.getD (updateAnnotationRow db input now).2.annotations i dRow).content.isSome =
      true := by
  rw [updateAnnotationRow_getD]
  by_cases hl : i < db.annotations.length
  · rw [if_pos hl]
    exact applyAnnotationUpdate_content_isSome _ _ _ h
  · rw [getD_dRow_out hl] at h
    simp [dRow] at h

theorem updateAnnotationRow_keeps_position (db : Db) (input : UpdateAnnotationInput)
    (now : String) (i : Nat)
    (h : (List.getD db.annotations i dRow).positionData.isSome = true) :
    (List.getD (updateAnnotationRow db input now).2.annotations i dRow).positionData.isSome =
      true := by
  rw [updateAnnotationRow_getD]
  by_cases hl : i < db.annotations.length
  · rw [if_pos hl]
    exact applyAnnotationUpdate_positionData_isSome _ _ _ h
  · rw [getD_dRow_out hl] at h
    simp [dRow] at h

/-! Helper lemmas about the listing order. -/

theorem wellFormed_select {db : Db} {page : Option Nat}
    (h : wellFormedDb db = true) :
    ∀ r ∈ selectAnnotations db page,
      (Except.toOption (AnnotationType.fromStr r.typ)).isSome = true := by
  intro r hr
  have hmem : r ∈ db.annotations := by
    unfold selectAnnotations at hr
    cases page with
    | some p =>
      have := (List.Perm.mem_iff
        (List.perm_insertionSort rowCreatedLe
          (List.filter (fun r => r.pageNumber == p) db.annotations))).mp hr
      exact (List.mem_filter.mp this).1
    | none =>
      exact (List.Perm.mem_iff (List.perm_insertionSort rowLe db.annotations)).mp hr
  exact List.all_eq_true.mp h r hmem

theorem getAnnotations_ok {db : Db} (page : Option Nat)
    (h : wellFormedDb db = true) :
    getAnnotations db page =
      Except.ok (List.map decodeRowD (selectAnnotations db page)) :=
  decodeRows_ok (wellFormed_select h)

theorem filter_sort_eq_filter (rows : List AnnotationRow) (q : Nat)
    (hmono : List.Pairwise rowCreatedLt rows) :
    List.filter (fun r => r.pageNumber == q) (List.insertionSort rowLe rows) =
      List.filter (fun r => r.pageNumber == q) rows := by
  have hperm : (List.filter (fun r => r.pageNumber == q)
      (List.insertionSort rowLe rows)).Perm
      (List.filter (fun r => r.pageNumber == q) rows) :=
    (List.perm_insertionSort rowLe rows).filter _
  have hsortB : List.Pairwise rowCreatedLt
      (List.filter (fun r => r.pageNumber == q) rows) :=
    hmono.filter _
  have hA2 : List.Pairwise rowLe
      (List.filter (fun r => r.pageNumber == q) (List.insertionSort rowLe rows)) :=
    (List.sorted_insertionSort rowLe rows).filter _
  have hB3 : List.Pairwise (fun a b : AnnotationRow => a.createdAt ≠ b.createdAt)
      (List.filter (fun r => r.pageNumber == q) rows) :=
    hsortB.imp (fun h => strLt_ne h)
  have hA3 : List.Pairwise (fun a b : AnnotationRow => a.createdAt ≠ b.createdAt)
      (List.filter (fun r => r.pageNumber == q) (List.insertionSort rowLe rows)) :=
    (hperm.pairwise_iff (fun h => Ne.symm h)).mpr hB3
  have hA : List.Pairwise rowCreatedLt
      (List.filter (fun r => r.pageNumber == q) (List.insertionSort rowLe rows)) := by
    refine List.Pairwise.imp_of_mem ?_ (hA2.and hA3)
    intro a b ha hb hab
    have hpa : a.pageNumber = q := by
      have := (List.mem_filter.mp ha).2
      simpa using this
    have hpb : b.pageNumber = q := by
      have := (List.mem_filter.mp hb).2
      simpa using this
    rcases hab.1 with hlt | ⟨_, hle⟩
    · rw [hpa, hpb] at hlt
      exact absurd hlt (Nat.lt_irrefl q)
    · exact strLt_of_strLe_ne hle hab.2
  exact List.eq_of_perm_of_sorted hperm hA hsortB

/-! Claim theorems. -/

/-- C1: the claim states that an `open`/`import` issued while a session is
already open persists the prior session's pending edits to its archive
before discarding it. The code does not: `open_file` only calls
`cleanup_session` on the previous session. Concretely, with session A
holding `pendingRow` unsaved and `a.rr` on disk without it, opening `b.rr`
succeeds, installs the new session, and leaves the filesystem byte-for-byte
unchanged, so A's pending edit is dropped. -/
theorem open_file_discards_unsaved_edits :
    pendingRow ∈ sessionA.db.annotations ∧
    pendingRow ∉ emptyDb.annotations ∧
    fsRead fsAB "a.rr" = some staleArchiveA ∧
    (∃ info, (openFile fsAB none "b.rr" (some sessionA) "t9").1 = Except.ok info) ∧
    (openFile fsAB none "b.rr" (some sessionA) "t9").2.2 = fsAB ∧
    Option.map (fun s => s.rrPath)
        (openFile fsAB none "b.rr" (some sessionA) "t9").2.1 = some "b.rr" :=
  ⟨by decide, by decide, rfl,
    ⟨⟨"document.pdf", "b.rr", none, none, none⟩, rfl⟩, rfl, rfl⟩

/-- C2: the claim states that a failed persist during `close` leaves the
session Open and unchanged. The code takes the session out of the slot
before saving, so when `save_rr` fails the error is propagated but the
state is already Closed and the session is gone. Concretely, closing
`sessionD` while the destination cannot be created yields an error, an
empty session slot, and an unchanged filesystem. -/
theorem close_file_drops_session_on_save_failure :
    (∃ e, (closeFile fsD (some 0) (some sessionD)).1 = Except.error e) ∧
    (closeFile fsD (some 0) (some sessionD)).2.1 = none ∧
    (closeFile fsD (some 0) (some sessionD)).2.2 = fsD :=
  ⟨⟨"Failed to create .rr file: doc.rr", rfl⟩, rfl, rfl⟩

/-- C3: the claim states that `save_rr` overwrites the destination
atomically (write-then-rename), leaving the previous archive intact when the
save fails partway. The code truncates the destination with `File::create`
and streams the zip entries directly to it, so a failure after the manifest
entry leaves a partial one-entry archive where the good archive used to
be. -/
theorem save_rr_clobbers_previous_archive_on_failure :
    (∃ e, (saveRr fsD (some 2) sessionD).1 = Except.error e) ∧
    fsRead fsD "doc.rr" = some goodArchive ∧
    fsRead (saveRr fsD (some 2) sessionD).2 "doc.rr" =
      some (FileData.archive [("manifest.json", FileData.bytes [10])]) ∧
    FileData.archive [("manifest.json", FileData.bytes [10])] ≠ goodArchive := by
  refine ⟨⟨"Failed to write PDF", rfl⟩, rfl, rfl, ?_⟩
  intro h
  simp [goodArchive] at h

/-- C7 counterexample: the claim states that a malformed serialized position
payload is a hard data error. On the stored row of `badPosDb` the payload
`"not json"` does not parse, yet `get_annotations` succeeds and silently
returns the record with `position_data` dropped to `none`. -/
theorem get_annotations_drops_malformed_position :
    Except.toOption (positionDataFromJson "not json") = none ∧
    badPosDb.annotations =
      [⟨"a1", "highlight", 1, none, none, some "not json", "t1", "t1"⟩] ∧
    getAnnotations badPosDb none =
      Except.ok [⟨"a1", AnnotationType.highlight, 1, none, none, none, "t1", "t1"⟩] :=
  ⟨rfl, rfl, rfl⟩

/-- C7 as amended: an unrecognized stored type tag is a hard data error
surfaced to the caller (listing cannot succeed), while a malformed
serialized position payload is silently decoded as an absent position, not
an error. -/
theorem annotation_decoding_amended_spec :
    (∀ (db : Db) (r : AnnotationRow), r ∈ db.annotations →
      (∀ t, AnnotationType.fromStr r.typ ≠ Except.ok t) →
      ∀ l, getAnnotations db none ≠ Except.ok l) ∧
    (∀ (r : AnnotationRow) (t : AnnotationType) (s : String),
      AnnotationType.fromStr r.typ = Except.ok t →
      r.positionData = some s →
      (∀ pd, positionDataFromJson s ≠ Except.ok pd) →
      decodeAnnotationRow r =
        Except.ok ⟨r.id, t, r.pageNumber, r.color, r.content, none,
          r.createdAt, r.updatedAt⟩) := by
  constructor
  · intro db r hr hbad l hok
    have hmem : r ∈ selectAnnotations db none := by
      unfold selectAnnotations
      exact (List.Perm.mem_iff (List.perm_insertionSort rowLe db.annotations)).mpr hr
    obtain ⟨a, ha⟩ := decodeRows_mem_ok hok r hmem
    unfold decodeAnnotationRow at ha
    cases hf : AnnotationType.fromStr r.typ with
    | error e => rw [hf] at ha; cases ha
    | ok t => exact hbad t hf
  · intro r t s hf hp hbad
    unfold decodeAnnotationRow
    rw [hf, hp]
    cases hj : positionDataFromJson s with
    | error e => simp [Except.toOption, hj]
    | ok pd => exact absurd hj (hbad pd)

/-- C7 amended witness at a concrete row: valid tag, unparseable payload. -/
theorem annotation_decoding_amended_spec_witness :
    decodeAnnotationRow ⟨"a1", "highlight", 1, none, none, some "not json", "t1", "t1"⟩ =
      Except.ok ⟨"a1", AnnotationType.highlight, 1, none, none, none, "t1", "t1"⟩ :=
  annotation_decoding_amended_spec.2
    ⟨"a1", "highlight", 1, none, none, some "not json", "t1", "t1"⟩
    AnnotationType.highlight "not json" rfl rfl
    (fun pd h => by cases h)

/-- C8: every store operation invoked with the session slot empty (state
Closed) fails with the "No file is open" error, leaves the slot empty and
the filesystem untouched, and returns normally rather than crashing (the
model is total). There is no separate get-metadata command; every store
command the layer exposes is covered. -/
theorem closed_state_guard :
    ∀ (fs : Fs) (failAt : Option Nat) (page : Option Nat)
      (input : CreateAnnotationInput) (upd : UpdateAnnotationInput)
      (id now key value : String),
      saveFile fs failAt none = (Except.error "No file is open", none, fs) ∧
      getAnnotationsCmd none page = (Except.error "No file is open", none) ∧
      createAnnotationCmd none input id now = (Except.error "No file is open", none) ∧
      updateAnnotationCmd none upd now = (Except.error "No file is open", none) ∧
      deleteAnnotationCmd none id = (Except.error "No file is open", none) ∧
      setDocumentMetadataCmd none key value = (Except.error "No file is open", none) ∧
      readPdfBytesCmd none = (Except.error "No file is open", none) := by
  intro fs failAt page input upd id now key value
  exact ⟨rfl, rfl, rfl, rfl, rfl, rfl, rfl⟩

/-- C9: update and delete report `true` exactly when a row with the given id
exists, and when they report `false` (nonexistent id, not an error) the
stored contents are unchanged. -/
theorem update_delete_existence_spec :
    ∀ (db : Db) (input : UpdateAnnotationInput) (now id : String),
      ((updateAnnotationRow db input now).1 = true ↔
        ∃ r ∈ db.annotations, r.id = input.id) ∧
      ((deleteAnnotationRow db id).1 = true ↔
        ∃ r ∈ db.annotations, r.id = id) ∧
      ((updateAnnotationRow db input now).1 = false →
        (updateAnnotationRow db input now).2 = db) ∧
      ((deleteAnnotationRow db id).1 = false →
        (deleteAnnotationRow db id).2 = db) := by
  intro db input now id
  refine ⟨?_, ?_, ?_, ?_⟩
  · simp [updateAnnotationRow, List.countP_pos_iff]
  · simp [deleteAnnotationRow, List.countP_pos_iff]
  · intro h
    simp only [updateAnnotationRow, decide_eq_false_iff_not, Nat.not_lt,
      Nat.le_zero] at h
    have hall : ∀ r ∈ db.annotations, applyAnnotationUpdate input now r = r := by
      intro r hr
      have hne := List.countP_eq_zero.mp h r hr
      exact applyAnnotationUpdate_ne (by simpa using hne)
    have hmap : List.map (applyAnnotationUpdate input now) db.annotations =
        db.annotations := by
      rw [List.map_congr_left hall]
      exact List.map_id _
    show { db with annotations := List.map (applyAnnotationUpdate input now) db.annotations } = db
    rw [hmap]
  · intro h
    simp only [deleteAnnotationRow, decide_eq_false_iff_not, Nat.not_lt,
      Nat.le_zero] at h
    have hall : ∀ r ∈ db.annotations, (!(r.id == id)) = true := by
      intro r hr
      have hne := List.countP_eq_zero.mp h r hr
      simpa using hne
    show { db with annotations := List.filter (fun r => !(r.id == id)) db.annotations } = db
    rw [List.filter_eq_self.mpr hall]

/-- C9 witness: deleting a nonexistent id leaves `wDb` unchanged, and
updating the existing id reports true. -/
theorem update_delete_existence_spec_witness :
    (deleteAnnotationRow wDb "nope").2 = wDb ∧
    (updateAnnotationRow wDb wInput "t2").1 = true :=
  ⟨(update_delete_existence_spec wDb wInput "t2" "nope").2.2.2 (by decide),
    (update_delete_existence_spec wDb wInput "t2" "nope").1.mpr
      ⟨wRow, by decide, by decide⟩⟩

/-- C10: a partial update can never turn a present optional field absent:
for every database, every sequence of updates, and every row position, if
`color`/`content`/`position_data` is present before, it is present after
(omitted fields are kept via COALESCE and supplied ones are always
non-NULL). -/
theorem update_never_clears_optional_fields :
    ∀ (db : Db) (us : List (UpdateAnnotationInput × String)) (i : Nat),
      ((List.getD db.annotations i dRow).color.isSome = true →
        (List.getD (applyUpdates db us).annotations i dRow).color.isSome = true) ∧
      ((List.getD db.annotations i dRow).content.isSome = true →
        (List.getD (applyUpdates db us).annotations i dRow).content.isSome = true) ∧
      ((List.getD db.annotations i dRow).positionData.isSome = true →
        (List.getD (applyUpdates db us).annotations i dRow).positionData.isSome = true) := by
  intro db us i
  induction us generalizing db with
  | nil => exact ⟨fun h => h, fun h => h, fun h => h⟩
  | cons u rest ih =>
    refine ⟨?_, ?_, ?_⟩ <;> intro h
    · exact (ih _).1 (updateAnnotationRow_keeps_color db u.1 u.2 i h)
    · exact (ih _).2.1 (updateAnnotationRow_keeps_content db u.1 u.2 i h)
    · exact (ih _).2.2 (updateAnnotationRow_keeps_position db u.1 u.2 i h)

/-- C10 witness: after an update supplying only color and one supplying
nothing, the row's color is still present. -/
theorem update_never_clears_optional_fields_witness :
    (List.getD (applyUpdates wDb
        [(wInput, "t2"), (⟨"x", none, none, none⟩, "t3")]).annotations 0 dRow).color.isSome =
      true :=
  (update_never_clears_optional_fields wDb
    [(wInput, "t2"), (⟨"x", none, none, none⟩, "t3")] 0).1 (by decide)

/-- C5: update is a partial, frame-preserving operation: the table keeps its
length; rows with a different id are untouched; on the matching row the
identity, type, page and creation timestamp are unchanged, `updated_at` is
refreshed to the update's clock reading, and each of color, content and
position is kept when omitted and replaced when supplied. -/
theorem update_partial_fields_spec :
    ∀ (db : Db) (input : UpdateAnnotationInput) (now : String) (i : Nat)
      (old new : AnnotationRow),
      old = List.getD db.annotations i dRow →
      new = List.getD (updateAnnotationRow db input now).2.annotations i dRow →
      (updateAnnotationRow db input now).2.annotations.length =
          db.annotations.length ∧
      (old.id ≠ input.id → new = old) ∧
      (i < db.annotations.length → old.id = input.id →
        new.id = old.id ∧ new.typ = old.typ ∧
        new.pageNumber = old.pageNumber ∧ new.createdAt = old.createdAt ∧
        new.updatedAt = now ∧
        (input.color = none → new.color = old.color) ∧
        (∀ c, input.color = some c → new.color = some c) ∧
        (input.content = none → new.content = old.content) ∧
        (∀ c, input.content = some c → new.content = some c) ∧
        (input.positionData = none → new.positionData = old.positionData) ∧
        (∀ pd, input.positionData = some pd →
          new.positionData = some (positionDataToJson pd))) := by
  intro db input now i old new hold hnew
  subst hold
  subst hnew
  rw [updateAnnotationRow_getD]
  refine ⟨updateAnnotationRow_length db input now, ?_, ?_⟩
  · intro hne
    by_cases hl : i < db.annotations.length
    · rw [if_pos hl]
      exact applyAnnotationUpdate_ne hne
    · rw [if_neg hl, getD_dRow_out hl]
  · intro hl hid
    rw [if_pos hl]
    unfold applyAnnotationUpdate
    rw [if_pos (beq_iff_eq.mpr hid)]
    refine ⟨rfl, rfl, rfl, rfl, rfl, ?_, ?_, ?_, ?_, ?_, ?_⟩
    · intro hc; rw [hc]; rfl
    · intro c hc; rw [hc]; rfl
    · intro hc; rw [hc]; rfl
    · intro c hc; rw [hc]; rfl
    · intro hc; rw [hc]; rfl
    · intro pd hc; rw [hc]; rfl

/-- C5 witness: updating only color on `wDb` keeps content, keeps position
absent, refreshes `updated_at`, and sets the new color. -/
theorem update_partial_fields_spec_witness :
    (List.getD wDb.annotations 0 dRow).id = wInput.id ∧
    (List.getD (updateAnnotationRow wDb wInput "t2").2.annotations 0 dRow).updatedAt =
      "t2" ∧
    (List.getD (updateAnnotationRow wDb wInput "t2").2.annotations 0 dRow).color =
      some "blue" ∧
    (List.getD (updateAnnotationRow wDb wInput "t2").2.annotations 0 dRow).content =
      (List.getD wDb.annotations 0 dRow).content := by
  have h := (update_partial_fields_spec wDb wInput "t2" 0 _ _ rfl rfl).2.2
    (by decide) (by decide)
  exact ⟨by decide, h.2.2.2.2.1, h.2.2.2.2.2.2.1 "blue" rfl,
    h.2.2.2.2.2.2.2.1 rfl⟩

/-- C4: for every readable source PDF, importing and immediately re-opening
the produced container yields identical PDF bytes and a `title` metadata
entry equal to the source file's base name with the extension stripped; with
no destination given, the container is written at the source path with its
extension replaced by `rr`. -/
theorem import_then_open_round_trip :
    ∀ (fs : Fs) (p : String) (b : List Nat) (now stem : String),
      fsRead fs p = some (FileData.bytes b) →
      fileStem p = some stem →
      ∃ (s s2 : RrSession) (fs2 : Fs),
        importPdf fs none p none now = (Except.ok s, fs2) ∧
        s.rrPath = withExtension p "rr" ∧
        openRr fs2 (withExtension p "rr") = Except.ok s2 ∧
        readPdfBytesCmd (some s2) = (Except.ok b, some s2) ∧
        getMetadata s2.db "title" = some stem := by
  intro fs p b now stem hread hstem
  refine ⟨⟨withExtension p "rr",
      fsWrite (fsWrite (fsWrite [] "document.pdf" (FileData.bytes b))
          "manifest.json" (FileData.bytes (strBytes (manifestJson (manifestDefault now)))))
        "data.sqlite" (FileData.dbFile (setMetadata emptyDb "title" stem)),
      setMetadata emptyDb "title" stem⟩,
    ⟨withExtension p "rr",
      fsWrite (fsWrite (fsWrite [] "manifest.json"
            (FileData.bytes (strBytes (manifestJson (manifestDefault now)))))
          "document.pdf" (FileData.bytes b))
        "data.sqlite" (FileData.dbFile (setMetadata emptyDb "title" stem)),
      setMetadata emptyDb "title" stem⟩,
    fsWrite fs (withExtension p "rr")
      (FileData.archive
        [("manifest.json", FileData.bytes (strBytes (manifestJson (manifestDefault now)))),
          ("document.pdf", FileData.bytes b),
          ("data.sqlite", FileData.dbFile (setMetadata emptyDb "title" stem))]),
    ?_, rfl, ?_, ?_, ?_⟩
  · simp only [importPdf, hread, hstem]
    simp [saveRr, stepOk, fsRead_fsWrite]
  · simp only [openRr]
    rw [fsRead_fsWrite]
    simp only [if_pos rfl]
    simp [List.foldl, fsRead_fsWrite]
  · simp only [readPdfBytesCmd]
    rw [fsRead_fsWrite, fsRead_fsWrite, fsRead_fsWrite]
    simp
  · exact getMetadata_setMetadata_self emptyDb "title" stem

/-- C4 witness: a one-byte PDF at `paper.pdf` imports to `paper.rr` and
re-opens with identical bytes and title `paper`. -/
theorem import_then_open_round_trip_witness :
    ∃ (s s2 : RrSession) (fs2 : Fs),
      importPdf [("paper.pdf", FileData.bytes [9])] none "paper.pdf" none "n" =
        (Except.ok s, fs2) ∧
      s.rrPath = withExtension "paper.pdf" "rr" ∧
      openRr fs2 (withExtension "paper.pdf" "rr") = Except.ok s2 ∧
      readPdfBytesCmd (some s2) = (Except.ok [9], some s2) ∧
      getMetadata s2.db "title" = some "paper" :=
  import_then_open_round_trip [("paper.pdf", FileData.bytes [9])] "paper.pdf" [9]
    "n" "paper" rfl (by decide)

/-- C6: (1) the unfiltered listing returns every stored annotation, ordered
by page number ascending then by `created_at`; (2) when creation timestamps
strictly increase in insertion order (creation order), the annotations of
any one page appear in creation order, i.e. restricting the unfiltered
listing to a page gives exactly that page's rows in insertion order; (3) the
page-filtered listing returns exactly the annotations of that page; (4) the
concrete run: creating on pages 3, 1, 2 in that order and listing unfiltered
returns them ordered page 1, 2, 3. -/
theorem get_annotations_ordering_spec :
    (∀ db : Db, wellFormedDb db = true →
      ∃ l, getAnnotations db none = Except.ok l ∧
        l.Perm (List.map decodeRowD db.annotations) ∧
        List.Pairwise (fun a b : AnnotationRecord =>
          a.pageNumber < b.pageNumber ∨
            (a.pageNumber = b.pageNumber ∧ strLe a.createdAt b.createdAt = true)) l) ∧
    (∀ db : Db, wellFormedDb db = true →
      List.Pairwise rowCreatedLt db.annotations →
      ∀ q : Nat, ∃ l, getAnnotations db none = Except.ok l ∧
        List.filter (fun a => a.pageNumber == q) l =
          List.map decodeRowD
            (List.filter (fun r => r.pageNumber == q) db.annotations)) ∧
    (∀ (db : Db) (p : Nat), wellFormedDb db = true →
      ∃ l, getAnnotations db (some p) = Except.ok l ∧
        (∀ a ∈ l, a.pageNumber = p) ∧
        l.Perm (List.map decodeRowD
          (List.filter (fun r => r.pageNumber == p) db.annotations))) ∧
    (mkExDb = Except.ok exDb ∧
      getAnnotations exDb none = Except.ok
        [⟨"a2", AnnotationType.note, 1, none, none, none, "t2", "t2"⟩,
         ⟨"a3", AnnotationType.note, 2, none, none, none, "t3", "t3"⟩,
         ⟨"a1", AnnotationType.note, 3, none, none, none, "t1", "t1"⟩]) := by
  refine ⟨?_, ?_, ?_, rfl, rfl⟩
  · intro db hwf
    refine ⟨List.map decodeRowD (selectAnnotations db none),
      getAnnotations_ok none hwf, ?_, ?_⟩
    · exact (List.perm_insertionSort rowLe db.annotations).map decodeRowD
    · have hs : List.Pairwise rowLe (List.insertionSort rowLe db.annotations) :=
        List.sorted_insertionSort rowLe db.annotations
      exact List.pairwise_map.mpr (hs.imp (fun h => h))
  · intro db hwf hmono q
    refine ⟨List.map decodeRowD (selectAnnotations db none),
      getAnnotations_ok none hwf, ?_⟩
    rw [List.filter_map]
    have hcongr : List.filter ((fun a : AnnotationRecord => a.pageNumber == q) ∘ decodeRowD)
        (List.insertionSort rowLe db.annotations) =
        List.filter (fun r => r.pageNumber == q)
          (List.insertionSort rowLe db.annotations) :=
      List.filter_congr (fun r _ => rfl)
    show List.map decodeRowD (List.filter ((fun a : AnnotationRecord => a.pageNumber == q) ∘ decodeRowD) (List.insertionSort rowLe db.annotations)) =
      List.map decodeRowD (List.filter (fun r => r.pageNumber == q) db.annotations)
    rw [hcongr, filter_sort_eq_filter db.annotations q hmono]
  · intro db p hwf
    refine ⟨List.map decodeRowD (selectAnnotations db (some p)),
      getAnnotations_ok (some p) hwf, ?_, ?_⟩
    · intro a ha
      obtain ⟨r, hr, hra⟩ := List.mem_map.mp ha
      have hrmem : r ∈ List.filter (fun r => r.pageNumber == p) db.annotations :=
        (List.Perm.mem_iff (List.perm_insertionSort rowCreatedLe _)).mp hr
      have hpage : r.pageNumber = p := by
        have := (List.mem_filter.mp hrmem).2
        simpa using this
      rw [← hra]
      exact hpage
    · exact (List.perm_insertionSort rowCreatedLe _).map decodeRowD

/-- C6 witness: on the concrete database built by creating pages 3, 1, 2 the
hypotheses hold and the page-1 slice of the unfiltered listing is exactly
that page's rows in creation order. -/
theorem get_annotations_ordering_spec_witness :
    ∃ l, getAnnotations exDb none = Except.ok l ∧
      List.filter (fun a => a.pageNumber == 1) l =
        List.map decodeRowD
          (List.filter (fun r => r.pageNumber == 1) exDb.annotations) :=
  get_annotations_ordering_spec.2.1 exDb (by decide) (by decide) 1

end ResearchReader
